import Mathlib

/-!
Verification development for the LKSM deduplication engine (mm/lksm.c).

Shallow embedding: the counter bookkeeping, chain-duplicate selection,
checksum gating, unstable-tree search, merge rollback, scan-round reset,
priority ranking and unmerge teardown of the source are modelled as
executable Lean definitions, and the specified properties are proved
about those definitions.  Source line numbers refer to mm/lksm.c.
-/

namespace LKSM

/-! ## Page-sharing candidacy (mm/lksm.c:1835-1853) -/

/-- Source `__is_page_sharing_candidate` (lksm.c:1835-1847):
`stable_node->rmap_hlist_len && rmap_hlist_len + offset < ksm_max_page_sharing`.
`max` stands for the configurable `ksm_max_page_sharing`. -/
def __is_page_sharing_candidate (max len offset : Int) : Bool :=
  decide (len ≠ 0) && decide (len + offset < max)

/-- Source `is_page_sharing_candidate` (lksm.c:1849-1853). -/
def is_page_sharing_candidate (max len : Int) : Bool :=
  __is_page_sharing_candidate max len 0

/-! ## Single-node fan-out counter system (claim C1)

`stable_tree_append` (lksm.c:2512) does `rmap_hlist_len++`; the detach paths
(lksm.c:1288, lksm.c:1137) do `rmap_hlist_len--` under `VM_BUG_ON(len <= 0)`.
A node is handed out for a regular merge only when it is freshly inserted
with length 0 (lksm.c:2386) or when `is_page_sharing_candidate` holds
(lksm.c:2008, 2207, 2233, 2249); but a forked KSM page is returned by
`stable_tree_search` with no candidacy check (lksm.c:2062-2066) and appended
with `max_page_sharing_bypass` set (lksm.c:2596-2601, 2512-2516), letting a
full node go over the sharing limit with only the warning suppressed. -/

/-- `cmp_and_merge_page` (lksm.c:2596-2601): the bypass flag is set exactly
when the node is no longer a sharing candidate, so that a KSM fork may "go
over the sharing limit without warnings". -/
def max_page_sharing_bypass (max len : Int) : Bool :=
  !is_page_sharing_candidate max len

/-- One counter transition of a canonical node's `rmap_hlist_len`: a regular
attach (increment, only on a fresh node or a sharing candidate), a bypass
attach of a forked KSM page onto a node past the candidacy check
(lksm.c:2062-2066, 2596-2601, 2512-2516; `bypass` records whether the history
may use forked pages), or a detach (decrement, only on a positive counter,
`VM_BUG_ON` otherwise). -/
inductive CntStep (max : Int) (bypass : Bool) : Int → Int → Prop
  | attach (len : Int)
      (h : len = 0 ∨ is_page_sharing_candidate max len = true) :
      CntStep max bypass len (len + 1)
  | attach_bypass (len : Int) (h : 0 ≤ len) (hb : bypass = true)
      (hfull : max_page_sharing_bypass max len = true) :
      CntStep max bypass len (len + 1)
  | detach (len : Int) (h : 0 < len) : CntStep max bypass len (len - 1)

/-- Counter values reachable from a freshly inserted node
(`stable_node_dup->rmap_hlist_len = 0`, lksm.c:2386). -/
def CntReachable (max : Int) (bypass : Bool) (len : Int) : Prop :=
  Relation.ReflTransGen (CntStep max bypass) 0 len

/-! ## Duplicate selection on a chain (mm/lksm.c:1855-1972, claims C2, C5) -/

/-- A duplicate stable node as seen by `stable_node_dup`: whether
`get_ksm_page` still finds its backing page live, and its
`rmap_hlist_len`. -/
structure DupNode where
  live : Bool
  len : Int
deriving DecidableEq, Repr

/-- The comparison in `stable_node_dup` (lksm.c:1892-1893):
`!found || dup->rmap_hlist_len > found_rmap_hlist_len`. -/
def dup_better (found : Option DupNode) (d : DupNode) : Bool :=
  match found with
  | none => true
  | some f => decide (f.len < d.len)

/-- The hlist walk of `stable_node_dup` (lksm.c:1874-1907).  `nr` counts the
live duplicates; `found` is replaced whenever a live sharing candidate with a
strictly larger `rmap_hlist_len` is met; with `prune = false` the walk breaks
at the first candidate found (lksm.c:1900-1902). -/
def stable_node_dup_walk (max : Int) (prune : Bool) :
    Option DupNode → Nat → List DupNode → Option DupNode × Nat
  | found, nr, [] => (found, nr)
  | found, nr, d :: rest =>
    if d.live then
      if is_page_sharing_candidate max d.len && dup_better found d then
        if prune then stable_node_dup_walk max prune (some d) (nr + 1) rest
        else (some d, nr + 1)
      else stable_node_dup_walk max prune found (nr + 1) rest
    else stable_node_dup_walk max prune found nr rest

/-- Entry point of the walk, with empty accumulator (lksm.c:1860-1863). -/
def stable_node_dup_model (max : Int) (prune : Bool) (dups : List DupNode) :
    Option DupNode × Nat :=
  stable_node_dup_walk max prune none 0 dups

/-- Modelled from the spec: "pick the duplicate with the *largest* remaining
fan-out headroom among those with any headroom at all (tie-break: first
found)", headroom being `max - len`, among duplicates whose backing copy is
live.  Stated only to be compared against `stable_node_dup_model`. -/
def stable_node_dup_by_headroom (max : Int) :
    Option DupNode → List DupNode → Option DupNode
  | found, [] => found
  | found, d :: rest =>
    if d.live && decide (0 < max - d.len) &&
        (match found with
         | none => true
         | some f => decide (max - f.len < max - d.len)) then
      stable_node_dup_by_headroom max (some d) rest
    else stable_node_dup_by_headroom max found rest

/-- Spec-side selection with empty accumulator. -/
def stable_node_dup_spec (max : Int) (dups : List DupNode) : Option DupNode :=
  stable_node_dup_by_headroom max none dups

/-- An entry of the stable rbtree: a regular node or a chain of duplicates. -/
inductive StoreEntry where
  | regular (d : DupNode)
  | chainE (dups : List DupNode)
deriving DecidableEq, Repr

/-- Result of a pruning chain lookup: the store (with the visited position
possibly rewritten), the `ksm_stable_node_chains` / `ksm_stable_node_dups`
counters, and the selected duplicate. -/
structure ChainPruneResult where
  store : List StoreEntry
  chains : Int
  ndups : Int
  found : Option DupNode
deriving DecidableEq, Repr

/-- The pruning lookup of a chain at position `k` of the stable tree
(`stable_node_dup` with `prune_stale_stable_nodes = true`, lksm.c:1874-1946):
each stale duplicate met by the walk is evicted by `get_ksm_page` through
`remove_node_from_stable_tree` and `__stable_node_dup_del`, which decrements
`ksm_stable_node_dups` once per evicted duplicate (lksm.c:692-697, 1155-1158);
if the walk counted exactly one live duplicate and found a candidate, the
chain is additionally replaced in place by that duplicate
(`rb_replace_node`, lksm.c:1929-1933) with one more decrement of each
counter (lksm.c:1932-1933). -/
def chain_prune_at (max : Int) (store : List StoreEntry) (chains ndups : Int)
    (k : Nat) : ChainPruneResult :=
  match store[k]? with
  | some (StoreEntry.chainE ds) =>
    let ndead : Int := ((ds.filter (fun x => !x.live)).length : Int)
    match stable_node_dup_model max true ds with
    | (some f, nr) =>
      if nr = 1 then
        ⟨store.set k (StoreEntry.regular f), chains - 1,
          ndups - ndead - 1, some f⟩
      else
        ⟨store.set k (StoreEntry.chainE (ds.filter (fun x => x.live))),
          chains, ndups - ndead, some f⟩
    | (none, _) =>
      ⟨store.set k (StoreEntry.chainE (ds.filter (fun x => x.live))),
        chains, ndups - ndead, none⟩
  | _ => ⟨store, chains, ndups, none⟩

/-! ## Checksum gate of `cmp_and_merge_page` (mm/lksm.c:2637-2650, claim C3) -/

/-- Source `initial_round` (lksm.c:594). -/
def initial_round : Nat := 3

/-- Outcome of the stage of `cmp_and_merge_page` that decides between the
stable-tree merge, the checksum deferral and the unstable-tree path. -/
inductive CmpOutcome where
  | merged_stable
  | deferred (newsum : Nat)
  | unstable_path
deriving DecidableEq, Repr

/-- The checksum stage of `cmp_and_merge_page` (lksm.c:2604-2650): a
stable-tree match is merged without consulting the checksum; otherwise the
checksum is computed and compared only when
`ksm_scan.scan_round < initial_round && !lksm_test_rmap_frozen(rmap_item)`
(lksm.c:2643-2644); a changed checksum is recorded and the page deferred;
in all other cases the walk proceeds to the unstable tree. -/
def cmp_and_merge_checksum_stage (stable_match : Bool) (scan_round : Nat)
    (frozen : Bool) (oldchecksum newsum : Nat) : CmpOutcome :=
  if stable_match then CmpOutcome.merged_stable
  else if scan_round < initial_round && !frozen then
    if oldchecksum = newsum then CmpOutcome.unstable_path
    else CmpOutcome.deferred newsum
  else CmpOutcome.unstable_path

/-! ## Merge rollback (mm/lksm.c:1814-1833, 2701-2736, claim C6) -/

/-- The observable state of one side of a two-page merge: whether its page
has been write-protected (upgraded toward a ksm page) and whether its
rmap_item is attached to a stable node. -/
structure MergeSide where
  write_protected : Bool
  attached : Bool
deriving DecidableEq, Repr

/-- `break_cow` (lksm.c:864-885): the write protection is undone, the page
goes back to its private copy-on-write state. -/
def break_cow (s : MergeSide) : MergeSide :=
  { s with write_protected := false }

/-- `try_to_merge_two_pages` (lksm.c:1814-1833): merge the first side into a
fresh ksm page (which write-protects it); on success merge the second side
with it; if the second merge fails, `break_cow` the first side and report no
kpage.  `ok1`/`ok2` stand for the outcomes of the two external
`try_to_merge_with_ksm_page` calls. -/
def try_to_merge_two_pages (ok1 ok2 : Bool) (a b : MergeSide) :
    Bool × MergeSide × MergeSide :=
  if ok1 then
    if ok2 then
      (true, { a with write_protected := true },
        { b with write_protected := true })
    else (false, break_cow { a with write_protected := true }, b)
  else (false, a, b)

/-- The unstable-match branch of `cmp_and_merge_page` (lksm.c:2686-2736):
on a successful two-page merge the new kpage is inserted into the stable
tree; if `stable_tree_insert` fails (`insert_ok = false`), both sides get
`break_cow` and neither is appended; on success both rmap_items are appended
to the new stable node. -/
def cmp_and_merge_unstable_case (ok1 ok2 insert_ok : Bool)
    (a b : MergeSide) : MergeSide × MergeSide :=
  match try_to_merge_two_pages ok1 ok2 a b with
  | (true, a1, b1) =>
    if insert_ok then
      ({ a1 with attached := true }, { b1 with attached := true })
    else (break_cow a1, break_cow b1)
  | (false, a1, b1) => (a1, b1)

/-! ## Round boundary of the scanner (mm/lksm.c:3186-3197, claim C7) -/

/-- The slice of `ksm_scan` state touched at the head of
`scan_get_next_rmap_item`: the scan round, the crawler round
(`ksm_crawl_round`) and the contents of `root_unstable_tree`. -/
structure ScanCursor where
  scan_round : Nat
  crawl_round : Nat
  unstable_tree : List Nat
deriving DecidableEq, Repr

/-- Head of `scan_get_next_rmap_item` (lksm.c:3189-3192): when the cursor is
behind the crawler the round is advanced and
`root_unstable_tree[LKSM_NODE_ID] = RB_ROOT` resets the unstable tree,
before any slot is taken from the scan list. -/
def scan_round_begin (s : ScanCursor) : ScanCursor :=
  if s.scan_round < s.crawl_round then
    { s with scan_round := s.crawl_round, unstable_tree := [] }
  else s

/-! ## Priority registry and merge window (claim C8) -/

/-- Source `MERGE_WIN` (lksm.c:138). -/
def MERGE_WIN : Nat := 3

/-- An mm_slot as seen by the ranking code: an identity (insertion recency),
the summed merge count `nr_merged`, and the eligibility bits tested by
`lksm_prepare_partial_scan` (lksm.c:3643-3655): not exited, `KSM_MM_LISTED`,
and a changed fault count. -/
structure MSlot where
  sid : Nat
  nr_merged : Int
  listed : Bool
  exited : Bool
  fault_changed : Bool
deriving DecidableEq, Repr

/-- `lksm_insert_mm_slot_ordered` (lksm.c:2880-2903) as the in-order
sequence of the `vips_list` rbtree: descend left when
`slot->nr_merged > temp_slot->nr_merged`, else right; hence the new slot's
in-order position is before the first strictly smaller entry. -/
def lksm_insert_mm_slot_ordered : List MSlot → MSlot → List MSlot
  | [], s => [s]
  | x :: xs, s =>
    if x.nr_merged < s.nr_merged then s :: x :: xs
    else x :: lksm_insert_mm_slot_ordered xs s

/-- Modelled from the spec: ranked "by recent merge-count sum, ties broken
toward more-recently-ranked", i.e. an equal-valued newcomer is placed before
the equal entries already ranked.  Stated only to be compared against
`lksm_insert_mm_slot_ordered`. -/
def lksm_insert_mm_slot_spec : List MSlot → MSlot → List MSlot
  | [], s => [s]
  | x :: xs, s =>
    if x.nr_merged ≤ s.nr_merged then s :: x :: xs
    else x :: lksm_insert_mm_slot_spec xs s

/-- Source `sum_merge_win` (lksm.c:3148-3155). -/
def sum_merge_win (win : List Int) : Int :=
  win.foldl (fun a b => a + b) 0

/-- The circular merge window of an mm_slot (`nr_merged_win`, `merge_idx`). -/
structure MergeWindow where
  nr_merged_win : List Int
  merge_idx : Nat
deriving DecidableEq, Repr

/-- `lksm_account_mm_slot_nr_merge` (lksm.c:3157-3164): store the round's
merge count at `merge_idx`, advance the index modulo `MERGE_WIN`, and return
the refreshed window together with the new `nr_merged` sum. -/
def lksm_account_mm_slot_nr_merge (w : MergeWindow) (nr : Int) :
    MergeWindow × Int :=
  let win := w.nr_merged_win.set w.merge_idx nr
  let idx := if w.merge_idx + 1 = MERGE_WIN then 0 else w.merge_idx + 1
  (⟨win, idx⟩, sum_merge_win win)

/-- Repeated accounting of one merge count per completed scan. -/
def lksm_account_seq (w : MergeWindow) : List Int → MergeWindow
  | [] => w
  | v :: vs => lksm_account_seq (lksm_account_mm_slot_nr_merge w v).1 vs

/-- Eligibility of a vips_list entry in `lksm_prepare_partial_scan`
(lksm.c:3643-3655): skipped when exited, when not `KSM_MM_LISTED`, or when
its fault count did not change since the last ranking. -/
def vip_eligible (s : MSlot) : Bool :=
  !s.exited && s.listed && s.fault_changed

/-- The vips selection loop of `lksm_prepare_partial_scan` (lksm.c:3627-3678):
walk the ranked registry in order (`rb_first`/`rb_next`), move each eligible
slot to the round's work list, stop when the batch budget
(`lksm_max_vips` minus the already collected slots) is used up. -/
def lksm_prepare_vips (cap : Nat) : List MSlot → List MSlot
  | [] => []
  | x :: xs =>
    if cap = 0 then []
    else if vip_eligible x then x :: lksm_prepare_vips (cap - 1) xs
    else lksm_prepare_vips cap xs

/-! ## Unstable tree search (mm/lksm.c:2421-2489, claim C9) -/

/-- `memcmp_pages`: lexicographic byte comparison of two page contents. -/
def memcmp_pages : List Nat → List Nat → Ordering
  | [], [] => Ordering.eq
  | [], _ :: _ => Ordering.lt
  | _ :: _, [] => Ordering.gt
  | a :: as, b :: bs =>
    if a < b then Ordering.lt
    else if b < a then Ordering.gt
    else memcmp_pages as bs

/-- The unstable rbtree: each node carries the current content of its
candidate's page, or `none` when `get_mergeable_page` fails because the
page vanished. -/
inductive UTree where
  | nil : UTree
  | node (content : Option (List Nat)) (l r : UTree) : UTree
deriving DecidableEq, Repr

/-- Result of `unstable_tree_search_insert`: a matching candidate was found,
the querying record was inserted at a leaf (with the new tree), or the
search aborted because a visited candidate's page could not be read
(lksm.c:2442-2444: `if (!tree_page) return NULL;`). -/
inductive USearchResult where
  | found : USearchResult
  | inserted (t : UTree) : USearchResult
  | aborted : USearchResult
deriving DecidableEq, Repr

/-- `unstable_tree_search_insert` (lksm.c:2421-2489): walk by content
comparison; a visited node whose page cannot be read aborts the whole search
immediately, with no insertion and no repair; an exact match is returned;
otherwise the record is inserted at the reached leaf. -/
def unstable_tree_search_insert (c : List Nat) : UTree → USearchResult
  | UTree.nil => USearchResult.inserted (UTree.node (some c) UTree.nil UTree.nil)
  | UTree.node tc l r =>
    match tc with
    | none => USearchResult.aborted
    | some tcc =>
      match memcmp_pages c tcc with
      | Ordering.lt =>
        match unstable_tree_search_insert c l with
        | USearchResult.inserted l1 =>
            USearchResult.inserted (UTree.node tc l1 r)
        | x => x
      | Ordering.gt =>
        match unstable_tree_search_insert c r with
        | USearchResult.inserted r1 =>
            USearchResult.inserted (UTree.node tc l r1)
        | x => x
      | Ordering.eq => USearchResult.found

/-- Overall effect of the search on the tree: the abort path and the found
path leave the tree exactly as it was. -/
def unstable_search_run (c : List Nat) (t : UTree) : Option Unit × UTree :=
  match unstable_tree_search_insert c t with
  | USearchResult.found => (some (), t)
  | USearchResult.inserted t1 => (none, t1)
  | USearchResult.aborted => (none, t)

/-- The comparison path of the walk meets a candidate whose page vanished. -/
def visitsVanished (c : List Nat) : UTree → Bool
  | UTree.nil => false
  | UTree.node none _ _ => true
  | UTree.node (some tcc) l r =>
    match memcmp_pages c tcc with
    | Ordering.lt => visitsVanished c l
    | Ordering.gt => visitsVanished c r
    | Ordering.eq => false

/-! ## Stable-tree reverse-mapping bookkeeping (claims C10, C1) -/

/-- A stable node: its reverse-mapping hlist (rmap item ids, head first) and
its `rmap_hlist_len` counter. -/
structure StableNode where
  hlist : List Nat
  rmap_hlist_len : Int
deriving DecidableEq, Repr

/-- The global `ksm_pages_shared` / `ksm_pages_sharing` counters
(lksm.c:365-368). -/
structure Counters where
  pages_shared : Int
  pages_sharing : Int
deriving DecidableEq, Repr

/-- `stable_tree_append` (lksm.c:2496-2528): `rmap_hlist_len++`,
`hlist_add_head`, then `ksm_pages_sharing++` when the freshly added item has
a successor (the node already had an item), else `ksm_pages_shared++`. -/
def stable_tree_append (item : Nat) (node : StableNode) (c : Counters) :
    StableNode × Counters :=
  let node1 : StableNode := ⟨item :: node.hlist, node.rmap_hlist_len + 1⟩
  if node.hlist.isEmpty then
    (node1, { c with pages_shared := c.pages_shared + 1 })
  else
    (node1, { c with pages_sharing := c.pages_sharing + 1 })

/-- The stable branch of `remove_rmap_item_from_tree` (lksm.c:1268-1292):
`hlist_del`, then `ksm_pages_sharing--` when the hlist is still non-empty,
else `ksm_pages_shared--`; `rmap_hlist_len--`. -/
def remove_rmap_item_stable (item : Nat) (node : StableNode) (c : Counters) :
    StableNode × Counters :=
  let hl := node.hlist.erase item
  let node1 : StableNode := ⟨hl, node.rmap_hlist_len - 1⟩
  if hl.isEmpty then
    (node1, { c with pages_shared := c.pages_shared - 1 })
  else
    (node1, { c with pages_sharing := c.pages_sharing - 1 })

/-- Counter effect of `remove_node_from_stable_tree` (lksm.c:1122-1141): for
each item on the hlist, `ksm_pages_sharing--` when it has a successor,
`ksm_pages_shared--` for the last one. -/
def remove_node_counters : List Nat → Counters → Counters
  | [], c => c
  | [_], c => { c with pages_shared := c.pages_shared - 1 }
  | _ :: y :: ys, c =>
    remove_node_counters (y :: ys) { c with pages_sharing := c.pages_sharing - 1 }

/-- The stable store together with the global counters. -/
structure TreeState where
  nodes : List StableNode
  counters : Counters
deriving DecidableEq, Repr

/-- The operations of the engine on the stable store: `stable_tree_insert`
creates a node with `rmap_hlist_len = 0` and empty hlist (lksm.c:2383-2386);
`stable_tree_append` attaches an rmap item; `remove_rmap_item_from_tree`
detaches one of a node's items; `remove_node_from_stable_tree` drops a whole
node (stale page found by `get_ksm_page`). -/
inductive TreeStep : TreeState → TreeState → Prop
  | insert_node (s : TreeState) :
      TreeStep s ⟨s.nodes ++ [⟨[], 0⟩], s.counters⟩
  | attach (s : TreeState) (item n : Nat) (h : n < s.nodes.length) :
      TreeStep s
        ⟨s.nodes.set n (stable_tree_append item (s.nodes.get ⟨n, h⟩) s.counters).1,
          (stable_tree_append item (s.nodes.get ⟨n, h⟩) s.counters).2⟩
  | detach (s : TreeState) (item n : Nat) (h : n < s.nodes.length)
      (hmem : item ∈ (s.nodes.get ⟨n, h⟩).hlist) :
      TreeStep s
        ⟨s.nodes.set n
            (remove_rmap_item_stable item (s.nodes.get ⟨n, h⟩) s.counters).1,
          (remove_rmap_item_stable item (s.nodes.get ⟨n, h⟩) s.counters).2⟩
  | remove_node (s : TreeState) (n : Nat) (h : n < s.nodes.length) :
      TreeStep s
        ⟨s.nodes.eraseIdx n,
          remove_node_counters (s.nodes.get ⟨n, h⟩).hlist s.counters⟩

/-- States reachable from the empty store with zero counters. -/
def TreeReachable (s : TreeState) : Prop :=
  Relation.ReflTransGen TreeStep ⟨[], ⟨0, 0⟩⟩ s

/-- The counter identities of the claim: `pages_shared` counts the nodes
with a non-empty reverse-mapping list, and `pages_shared + pages_sharing`
counts all attached rmap items. -/
def counters_consistent (s : TreeState) : Prop :=
  s.counters.pages_shared
      = ((s.nodes.countP (fun nd => !nd.hlist.isEmpty) : Nat) : Int) ∧
  s.counters.pages_shared + s.counters.pages_sharing
      = (((s.nodes.map (fun nd => nd.hlist.length)).sum : Nat) : Int)

/-! ## Unmerge teardown (mm/lksm.c:1461-1517, 4408-4452, claim C4) -/

/-- Membership state of an rmap item (`STABLE_FLAG` with its stable node,
`UNSTABLE_FLAG`, or neither). -/
inductive RmapFlag where
  | stable (n : Nat)
  | unstable
  | untracked
deriving DecidableEq, Repr

/-- An rmap item as relevant to teardown. -/
structure UItem where
  flag : RmapFlag
deriving DecidableEq, Repr

/-- An mm_slot during `unmerge_and_remove_all_rmap_items`: its rmap_list and
the outcome of `unmerge_ksm_pages` over its vmas (`none` = success,
`some e` = the error propagated to the `error:` label, lksm.c:1482-1485). -/
structure USlot where
  items : List UItem
  unmerge_err : Option Int
deriving DecidableEq, Repr

/-- Engine state for teardown: the `rmap_hlist_len`-style occupancy of each
stable node (hlist length), and the `ksm_pages_shared`, `ksm_pages_sharing`,
`ksm_pages_unshared` counters. -/
structure UState where
  nodes : List Nat
  pages_shared : Int
  pages_sharing : Int
  pages_unshared : Int
deriving DecidableEq, Repr

/-- `remove_rmap_item_from_tree` (lksm.c:1266-1315) on the teardown state:
a stable item detaches from its node (`ksm_pages_sharing--` when the hlist
stays non-empty, else `ksm_pages_shared--`); an unstable item does
`ksm_pages_unshared--`; an untracked item does nothing. -/
def remove_rmap_item_from_tree (it : UItem) (s : UState) : UState :=
  match it.flag with
  | RmapFlag.stable n =>
    match s.nodes[n]? with
    | some k =>
      { s with nodes := s.nodes.set n (k - 1),
               pages_shared :=
                 if k - 1 = 0 then s.pages_shared - 1 else s.pages_shared,
               pages_sharing :=
                 if k - 1 = 0 then s.pages_sharing else s.pages_sharing - 1 }
    | none => s
  | RmapFlag.unstable => { s with pages_unshared := s.pages_unshared - 1 }
  | RmapFlag.untracked => s

/-- `remove_trailing_rmap_items` (lksm.c:1317-1325): remove every item of a
rmap_list from its tree. -/
def remove_trailing_rmap_items (items : List UItem) (s : UState) : UState :=
  items.foldl (fun st it => remove_rmap_item_from_tree it st) s

/-- The per-slot loop of `unmerge_and_remove_all_rmap_items`
(lksm.c:1473-1504): for each slot, `unmerge_ksm_pages` over its vmas (an
error aborts the whole verb, lksm.c:1511-1516), then
`remove_trailing_rmap_items` on its rmap_list. -/
def unmerge_slots : List USlot → UState → Except Int UState
  | [], s => Except.ok s
  | sl :: rest, s =>
    match sl.unmerge_err with
    | some e => Except.error e
    | none => unmerge_slots rest (remove_trailing_rmap_items sl.items s)

/-- Counter effect of `remove_node_from_stable_tree` (lksm.c:1122-1141) for
a node whose hlist has `k` items: `ksm_pages_shared--` once and
`ksm_pages_sharing--` for the other `k - 1` items. -/
def remove_node_counters_k (k : Nat) (s : UState) : UState :=
  if k = 0 then s
  else { s with pages_shared := s.pages_shared - 1,
                pages_sharing := s.pages_sharing - ((k : Int) - 1) }

/-- The EBUSY errno returned by `remove_stable_node` (lksm.c:1390). -/
def EBUSY : Int := 16

/-- The node-removal loop of `remove_all_stable_nodes` (lksm.c:1441-1452):
nodes are removed one at a time; when `remove_stable_node` finds a node's
page still mapped it returns -EBUSY (lksm.c:1386-1391) and the loop stops,
leaving that node and the remaining ones in the tree.  `busy i` says whether
the i-th node's page is still mapped when visited; removal of a node applies
`remove_node_counters_k` to the counters. -/
def remove_all_stable_nodes_loop (busy : Nat → Bool) :
    Nat → List Nat → UState → Int × List Nat × UState
  | _, [], s => (0, [], s)
  | i, k :: rest, s =>
    if busy i then (-EBUSY, k :: rest, s)
    else remove_all_stable_nodes_loop busy (i + 1) rest
      (remove_node_counters_k k s)

/-- `remove_all_stable_nodes` (lksm.c:1435-1459): run the removal loop over
the stable store; the error is -EBUSY when some node's page was still busy,
and in that case the un-removed nodes are left in the store. -/
def remove_all_stable_nodes (busy : Nat → Bool) (s : UState) :
    Int × UState :=
  let r := remove_all_stable_nodes_loop busy 0 s.nodes s
  (r.1, { r.2.2 with nodes := r.2.1 })

/-- `unmerge_and_remove_all_rmap_items` (lksm.c:1461-1517): unmerge every
slot (aborting with the error of a failing `unmerge_ksm_pages`), then clean
up the stable nodes, DISCARDING the busy result of
`remove_all_stable_nodes` (lksm.c:1506-1509, "don't worry if some are still
busy"): the verb returns success even when busy nodes remain in the store.
On success every slot's rmap_list is empty. -/
def unmerge_and_remove_all_rmap_items (busy : Nat → Bool)
    (slots : List USlot) (s : UState) :
    Except Int (List USlot × UState) :=
  match unmerge_slots slots s with
  | Except.error e => Except.error e
  | Except.ok s1 =>
    Except.ok (slots.map (fun sl => { sl with items := [] }),
      (remove_all_stable_nodes busy s1).2)

/-- Source `KSM_RUN_STOP` (lksm.c:425). -/
def KSM_RUN_STOP : Nat := 0

/-- Source `KSM_RUN_UNMERGE` (lksm.c:427). -/
def KSM_RUN_UNMERGE : Nat := 2

/-- The unmerge branch of `run_store` (lksm.c:4429-4442): run the teardown;
on error set `ksm_run = KSM_RUN_STOP` and report the error to the caller;
busy stable nodes do not surface here because their error was already
discarded inside the teardown (lksm.c:1506-1509). -/
def run_store_unmerge (busy : Nat → Bool) (slots : List USlot) (s : UState) :
    Nat × Except Int (List USlot × UState) :=
  match unmerge_and_remove_all_rmap_items busy slots s with
  | Except.error e => (KSM_RUN_STOP, Except.error e)
  | Except.ok r => (KSM_RUN_UNMERGE, Except.ok r)

/-- Number of stable items of the given rmap_list attached to node `n`. -/
def countRefs (items : List UItem) (n : Nat) : Nat :=
  (items.filter (fun it => decide (it.flag = RmapFlag.stable n))).length

/-- A stable reference stays inside the node table. -/
def flag_in_range (len : Nat) (it : UItem) : Bool :=
  match it.flag with
  | RmapFlag.stable n => decide (n < len)
  | _ => true

/-- Well-formedness of the teardown state against the item population: each
node's occupancy counts its attached items, stable references are in range,
and the three counters agree with the structure (`ksm_pages_shared` counts
occupied nodes, `shared + sharing` counts attached items,
`ksm_pages_unshared` counts unstable items). -/
def wfU (items : List UItem) (s : UState) : Prop :=
  (∀ n, n < s.nodes.length → s.nodes[n]? = some (countRefs items n)) ∧
  (∀ it ∈ items, flag_in_range s.nodes.length it = true) ∧
  s.pages_shared = ((s.nodes.countP (fun k => decide (0 < k)) : Nat) : Int) ∧
  s.pages_shared + s.pages_sharing = ((s.nodes.sum : Nat) : Int) ∧
  s.pages_unshared
    = ((items.countP (fun it => decide (it.flag = RmapFlag.unstable)) : Nat) : Int)

/-- All rmap_lists of a slot population, in scan order. -/
def allItems (slots : List USlot) : List UItem :=
  (slots.map (fun sl => sl.items)).flatten

/-- Concrete slot population for evaluating the teardown. -/
def c4slots : List USlot :=
  [⟨[⟨RmapFlag.stable 0⟩, ⟨RmapFlag.stable 0⟩, ⟨RmapFlag.unstable⟩], none⟩,
   ⟨[⟨RmapFlag.stable 1⟩, ⟨RmapFlag.untracked⟩], none⟩]

/-- Concrete engine state matching `c4slots`. -/
def c4state : UState := ⟨[2, 1], 2, 1, 1⟩

/-! ## Theorems -/

/-- C1 counterexample: with maximum fan-out 1, a node reaches the limit
(length 1, no longer a sharing candidate, so `max_page_sharing_bypass` is
set) and a forked KSM page is appended through the bypass path, driving the
reverse-mapping length counter to 2 > 1 at a quiescent point — the claimed
bound fails on the program. -/
theorem C1_counterexample :
    CntReachable 1 true 2 ∧ ¬((2 : Int) ≤ 1) ∧
    is_page_sharing_candidate 1 1 = false ∧
    max_page_sharing_bypass 1 1 = true := by
  refine ⟨?_, by decide, by decide, by decide⟩
  exact Relation.ReflTransGen.tail
    (Relation.ReflTransGen.single (CntStep.attach 0 (Or.inl rfl)))
    (CntStep.attach_bypass 1 (by decide) rfl (by decide))

/-- C1 (amended): the reverse-mapping length counter is never negative;
along histories with no forked-page bypass append it also never exceeds
max_page_sharing, but a bypass append (`max_page_sharing_bypass`, set
exactly when the node is past the candidacy check) can push it over the
limit; a node is offered for a regular new attachment
(`is_page_sharing_candidate`) only while its length leaves headroom under
the limit; attach increments and detach decrements the counter. -/
theorem C1_fanout_bound_amended (max : Int) (hmax : 0 < max) :
    (∀ b len, CntReachable max b len → 0 ≤ len) ∧
    (∀ len, CntReachable max false len → 0 ≤ len ∧ len ≤ max) ∧
    (∀ len, 0 ≤ len → is_page_sharing_candidate max len = true →
      0 < len ∧ len + 1 ≤ max) ∧
    (∀ b l1 l2, CntStep max b l1 l2 → l2 = l1 + 1 ∨ l2 = l1 - 1) := by
  refine ⟨?_, ?_, ?_, ?_⟩
  · intro b len h
    induction h with
    | refl => exact le_refl 0
    | tail _ hstep ih =>
      cases hstep with
      | attach hg => omega
      | attach_bypass hg _ _ => omega
      | detach hl => omega
  · intro len h
    induction h with
    | refl => exact ⟨le_refl 0, le_of_lt hmax⟩
    | tail _ hstep ih =>
      cases hstep with
      | attach hg =>
        rcases hg with h0 | hc
        · subst h0; omega
        · simp only [is_page_sharing_candidate, __is_page_sharing_candidate,
            Bool.and_eq_true, decide_eq_true_eq] at hc
          omega
      | attach_bypass _ hb _ => exact absurd hb (by decide)
      | detach hl => omega
  · intro len h0 hc
    simp only [is_page_sharing_candidate, __is_page_sharing_candidate,
      Bool.and_eq_true, decide_eq_true_eq] at hc
    omega
  · intro b l1 l2 hstep
    cases hstep with
    | attach _ => exact Or.inl rfl
    | attach_bypass _ _ _ => exact Or.inl rfl
    | detach _ => exact Or.inr rfl

/-- C1 amended witness: the bounds evaluated at the default maximum 256 and
the freshly inserted counter value 0. -/
theorem C1_fanout_bound_amended_witness :
    0 ≤ (0 : Int) ∧ (0 ≤ (0 : Int) ∧ (0 : Int) ≤ 256) :=
  ⟨(C1_fanout_bound_amended 256 (by decide)).1 false 0
      Relation.ReflTransGen.refl,
    (C1_fanout_bound_amended 256 (by decide)).2.1 0
      Relation.ReflTransGen.refl⟩

/-- C2 counterexample: on a chain with two live duplicates of lengths 1 and
2 (maximum 256), the source walk selects the length-2 duplicate (largest
current length, smallest headroom), while the spec's "largest remaining
headroom" rule selects the length-1 duplicate. -/
theorem C2_counterexample :
    (stable_node_dup_model 256 true
        [⟨true, 1⟩, ⟨true, 2⟩]).1 = some ⟨true, 2⟩ ∧
    stable_node_dup_spec 256 [⟨true, 1⟩, ⟨true, 2⟩] = some ⟨true, 1⟩ ∧
    (stable_node_dup_model 256 true [⟨true, 1⟩, ⟨true, 2⟩]).1 ≠
      stable_node_dup_spec 256 [⟨true, 1⟩, ⟨true, 2⟩] := by
  decide

/-- C3 counterexample: at scan round 3 (= `initial_round`) a non-frozen
record whose checksum changed from 1 to 2 is not deferred; the engine skips
the checksum gate and proceeds to the unstable tree, contradicting the claim
that such a record defers in every round. -/
theorem C3_counterexample :
    cmp_and_merge_checksum_stage false 3 false 1 2
        = CmpOutcome.unstable_path ∧
    (1 : Nat) ≠ 2 ∧
    cmp_and_merge_checksum_stage false 3 false 1 2
        ≠ CmpOutcome.deferred 2 := by
  decide

/-- C3 (amended): only during the initial rounds
(`scan_round < initial_round = 3`) does a non-frozen record with a changed
checksum defer (recording the new checksum) instead of proceeding to the
Candidate Store; from round 3 on the checksum gate is skipped entirely. -/
theorem C3_checksum_defer (scan_round : Nat) (frozen : Bool)
    (oldsum newsum : Nat) (hr : scan_round < initial_round)
    (hf : frozen = false) (hne : oldsum ≠ newsum) :
    cmp_and_merge_checksum_stage false scan_round frozen oldsum newsum
      = CmpOutcome.deferred newsum := by
  subst hf
  simp [cmp_and_merge_checksum_stage, hr, hne]

/-- C3 witness: round 0, non-frozen, checksum changed from 1 to 2. -/
theorem C3_checksum_defer_witness :
    (0 < initial_round ∧ (1 : Nat) ≠ 2) ∧
    cmp_and_merge_checksum_stage false 0 false 1 2 = CmpOutcome.deferred 2 :=
  ⟨⟨by decide, by decide⟩,
    C3_checksum_defer 0 false 1 2 (by decide) rfl (by decide)⟩

/-- C6: when the second side of a two-candidate merge fails, the
write-protection applied to the first side is undone (`break_cow`) and both
sides are left exactly as before; likewise when the freshly merged kpage
cannot be inserted into the stable tree, both sides get their copy-on-write
state restored and neither record is attached to a canonical node. -/
theorem C6_merge_rollback (a b : MergeSide)
    (ha : a = ⟨false, false⟩) (hb : b = ⟨false, false⟩) :
    (∀ insert_ok,
      cmp_and_merge_unstable_case true false insert_ok a b = (a, b)) ∧
    cmp_and_merge_unstable_case true true false a b = (a, b) ∧
    (try_to_merge_two_pages true false a b).1 = false ∧
    (try_to_merge_two_pages true false a b).2.1.write_protected = false ∧
    (try_to_merge_two_pages true false a b).2.1.attached = false ∧
    (try_to_merge_two_pages true false a b).2.2 = b := by
  subst ha; subst hb
  refine ⟨fun insert_ok => ?_, by decide, by decide, by decide,
    by decide, by decide⟩
  cases insert_ok <;> decide

/-- C6 witness: both sides start private and unattached. -/
theorem C6_merge_rollback_witness :
    cmp_and_merge_unstable_case true true false ⟨false, false⟩ ⟨false, false⟩
      = (⟨false, false⟩, ⟨false, false⟩) :=
  (C6_merge_rollback ⟨false, false⟩ ⟨false, false⟩ rfl rfl).2.1

/-- C7: whenever the scan cursor's round is behind the crawler's round, the
round is advanced to the crawler's and the Candidate Store (unstable tree)
is reset to the empty tree, before any owner is scanned. -/
theorem C7_round_reset (s : ScanCursor) (h : s.scan_round < s.crawl_round) :
    (scan_round_begin s).unstable_tree = [] ∧
    (scan_round_begin s).scan_round = s.crawl_round ∧
    (scan_round_begin s).crawl_round = s.crawl_round := by
  simp [scan_round_begin, h]

/-- C7 witness: cursor at round 0 with a stale tree, crawler at round 1. -/
theorem C7_round_reset_witness :
    (0 < 1) ∧ (scan_round_begin ⟨0, 1, [7]⟩).unstable_tree = [] :=
  ⟨by decide, (C7_round_reset ⟨0, 1, [7]⟩ (by decide)).1⟩

/-- C9: when the walk of the Candidate Store meets a candidate whose content
cannot be read, the search aborts immediately with no match, without
inserting the querying record and without modifying the tree. -/
theorem C9_vanished_aborts (c : List Nat) (t : UTree)
    (h : visitsVanished c t = true) :
    unstable_tree_search_insert c t = USearchResult.aborted ∧
    unstable_search_run c t = (none, t) := by
  have habort : unstable_tree_search_insert c t = USearchResult.aborted := by
    induction t with
    | nil => simp [visitsVanished] at h
    | node tc l r ihl ihr =>
      match tc with
      | none => simp [unstable_tree_search_insert]
      | some tcc =>
        cases hcmp : memcmp_pages c tcc with
        | lt =>
          simp only [visitsVanished, hcmp] at h
          simp [unstable_tree_search_insert, hcmp, ihl h]
        | gt =>
          simp only [visitsVanished, hcmp] at h
          simp [unstable_tree_search_insert, hcmp, ihr h]
        | eq => simp [visitsVanished, hcmp] at h
  exact ⟨habort, by simp [unstable_search_run, habort]⟩

/-- C9 witness: a one-node tree whose only candidate vanished. -/
theorem C9_vanished_aborts_witness :
    visitsVanished [1] (UTree.node none UTree.nil UTree.nil) = true ∧
    unstable_search_run [1] (UTree.node none UTree.nil UTree.nil)
      = (none, UTree.node none UTree.nil UTree.nil) :=
  ⟨by decide,
    (C9_vanished_aborts [1] (UTree.node none UTree.nil UTree.nil)
      (by decide)).2⟩

/-- Helper slot for the C8 counterexample, ranked first. -/
def c8A : MSlot := ⟨0, 5, true, false, true⟩

/-- Helper slot for the C8 counterexample, ranked second with equal value. -/
def c8B : MSlot := ⟨1, 5, true, false, true⟩

/-- C8 counterexample: two owners with equal ranked value 5; the source
registry keeps the earlier-ranked owner first (a batch of one selects it),
while the spec's tie rule toward the more-recently-ranked owner would place
the newcomer first. -/
theorem C8_counterexample :
    lksm_insert_mm_slot_ordered (lksm_insert_mm_slot_ordered [] c8A) c8B
        = [c8A, c8B] ∧
    lksm_insert_mm_slot_spec (lksm_insert_mm_slot_spec [] c8A) c8B
        = [c8B, c8A] ∧
    c8A ≠ c8B ∧
    lksm_prepare_vips 1
        (lksm_insert_mm_slot_ordered (lksm_insert_mm_slot_ordered [] c8A) c8B)
        = [c8A] ∧
    lksm_prepare_vips 1
        (lksm_insert_mm_slot_spec (lksm_insert_mm_slot_spec [] c8A) c8B)
        = [c8B] := by
  decide

/-- C8 helper: after scans recording merge counts a, b, c, d the ranked
value is the sum over the last MERGE_WIN = 3 scans. -/
theorem lksm_account_window_sum (a b c d : Int) :
    sum_merge_win
        (lksm_account_seq ⟨[0, 0, 0], 0⟩ [a, b, c, d]).nr_merged_win
      = b + c + d := by
  have h : (lksm_account_seq ⟨[0, 0, 0], 0⟩ [a, b, c, d]).nr_merged_win
      = [d, b, c] := rfl
  rw [h]
  simp [sum_merge_win]
  omega

/-- C8 helper: the ordered registry insertion places the new slot before the
first strictly smaller entry, i.e. after every entry with a greater-or-equal
value (so equal values break toward the earlier-ranked owner). -/
theorem lksm_insert_ordered_characterization (l : List MSlot) (s : MSlot) :
    lksm_insert_mm_slot_ordered l s
      = l.takeWhile (fun x => !decide (x.nr_merged < s.nr_merged)) ++
        s :: l.dropWhile (fun x => !decide (x.nr_merged < s.nr_merged)) := by
  induction l with
  | nil => rfl
  | cons x xs ih =>
    by_cases hx : x.nr_merged < s.nr_merged
    · simp [lksm_insert_mm_slot_ordered, hx, List.takeWhile_cons,
        List.dropWhile_cons]
    · simp [lksm_insert_mm_slot_ordered, hx, List.takeWhile_cons,
        List.dropWhile_cons, ih]

/-- C8 helper: the vips selection takes the first `cap` eligible owners in
registry order. -/
theorem lksm_prepare_vips_take (cap : Nat) (l : List MSlot) :
    lksm_prepare_vips cap l = (l.filter vip_eligible).take cap := by
  induction l generalizing cap with
  | nil => simp [lksm_prepare_vips]
  | cons x xs ih =>
    by_cases hc : cap = 0
    · subst hc; simp [lksm_prepare_vips]
    · obtain ⟨n, rfl⟩ : ∃ n, cap = n + 1 := ⟨cap - 1, by omega⟩
      by_cases he : vip_eligible x
      · simp [lksm_prepare_vips, he, List.filter_cons, ih]
      · simp [lksm_prepare_vips, hc, he, List.filter_cons, ih]

/-- C8 (amended): partial rounds draw owners in decreasing order of their
ranked value, the value being the sum of the per-round merge counts over the
last MERGE_WIN = 3 completed scans, with ties between equal values broken
toward the earlier-ranked (least recently ranked) owner, up to the batch
size: the registry insertion places a slot after all entries with a
greater-or-equal value, and the selection takes the first `cap` eligible
entries in registry order. -/
theorem C8_rank_order_amended :
    (∀ a b c d : Int,
      sum_merge_win
          (lksm_account_seq ⟨[0, 0, 0], 0⟩ [a, b, c, d]).nr_merged_win
        = b + c + d) ∧
    (∀ (l : List MSlot) (s : MSlot),
      lksm_insert_mm_slot_ordered l s
        = l.takeWhile (fun x => !decide (x.nr_merged < s.nr_merged)) ++
          s :: l.dropWhile (fun x => !decide (x.nr_merged < s.nr_merged))) ∧
    (∀ (cap : Nat) (l : List MSlot),
      lksm_prepare_vips cap l = (l.filter vip_eligible).take cap) :=
  ⟨lksm_account_window_sum, lksm_insert_ordered_characterization,
    lksm_prepare_vips_take⟩

/-- C2/C5 helper: a replaced accumulator had a strictly smaller length. -/
theorem dup_better_some (acc : Option DupNode) (d a : DupNode)
    (hb : dup_better acc d = true) (ha : acc = some a) : a.len < d.len := by
  subst ha
  simpa [dup_better] using hb

/-- C2/C5 helper: the comparison only fails against a kept accumulator of
greater-or-equal length. -/
theorem dup_better_false (acc : Option DupNode) (d : DupNode)
    (hb : dup_better acc d = false) : ∃ a, acc = some a ∧ d.len ≤ a.len := by
  match acc with
  | none => simp [dup_better] at hb
  | some a =>
    refine ⟨a, rfl, ?_⟩
    simpa [dup_better, not_lt] using hb

/-- C2 helper: characterization of the pruning walk's selection.  Either the
accumulator survives and bounds every live candidate of the list, or the
selected duplicate is a live sharing candidate of the list whose length
strictly exceeds every live candidate before it (and the accumulator) and is
at least the length of every live candidate after it. -/
theorem stable_node_dup_walk_sel (max : Int) (m : DupNode) :
    ∀ (l : List DupNode) (acc : Option DupNode) (nr : Nat),
      (stable_node_dup_walk max true acc nr l).1 = some m →
      (acc = some m ∧ ∀ x ∈ l, x.live = true →
          is_page_sharing_candidate max x.len = true → x.len ≤ m.len) ∨
      (∃ pre post, l = pre ++ m :: post ∧ m.live = true ∧
          is_page_sharing_candidate max m.len = true ∧
          (∀ x ∈ pre, x.live = true →
            is_page_sharing_candidate max x.len = true → x.len < m.len) ∧
          (∀ x ∈ post, x.live = true →
            is_page_sharing_candidate max x.len = true → x.len ≤ m.len) ∧
          (∀ a, acc = some a → a.len < m.len)) := by
  intro l
  induction l with
  | nil =>
    intro acc nr h
    simp only [stable_node_dup_walk] at h
    exact Or.inl ⟨h, by simp⟩
  | cons d rest ih =>
    intro acc nr h
    by_cases hl : d.live
    · by_cases hcb :
        (is_page_sharing_candidate max d.len && dup_better acc d) = true
      · rw [show stable_node_dup_walk max true acc nr (d :: rest)
              = stable_node_dup_walk max true (some d) (nr + 1) rest by
            simp [stable_node_dup_walk, hl, hcb]] at h
        rw [Bool.and_eq_true] at hcb
        rcases ih (some d) (nr + 1) h with ⟨hacc, hbound⟩ |
          ⟨pre, post, heq, hmlive, hmcand, hpre, hpost, haccp⟩
        · have hdm : d = m := by injection hacc
          subst hdm
          refine Or.inr ⟨[], rest, by simp, hl, hcb.1, by simp, hbound, ?_⟩
          intro a ha
          exact dup_better_some acc d a hcb.2 ha
        · refine Or.inr ⟨d :: pre, post, by simp [heq], hmlive, hmcand,
            ?_, hpost, ?_⟩
          · intro x hx hxl hxc
            rcases List.mem_cons.mp hx with rfl | hx2
            · exact haccp x rfl
            · exact hpre x hx2 hxl hxc
          · intro a ha
            exact lt_trans (dup_better_some acc d a hcb.2 ha) (haccp d rfl)
      · rw [Bool.not_eq_true] at hcb
        rw [show stable_node_dup_walk max true acc nr (d :: rest)
              = stable_node_dup_walk max true acc (nr + 1) rest by
            simp [stable_node_dup_walk, hl, hcb]] at h
        rcases ih acc (nr + 1) h with ⟨hacc, hbound⟩ |
          ⟨pre, post, heq, hmlive, hmcand, hpre, hpost, haccp⟩
        · refine Or.inl ⟨hacc, ?_⟩
          intro x hx hxl hxc
          rcases List.mem_cons.mp hx with rfl | hx2
          · have hbf : dup_better acc x = false := by
              rcases Bool.and_eq_false_iff.mp hcb with h1 | h1
              · rw [hxc] at h1; simp at h1
              · exact h1
            obtain ⟨a, ha, hda⟩ := dup_better_false acc x hbf
            rw [hacc] at ha
            have ham : m = a := by injection ha
            rw [ham]
            exact hda
          · exact hbound x hx2 hxl hxc
        · refine Or.inr ⟨d :: pre, post, by simp [heq], hmlive, hmcand,
            ?_, hpost, haccp⟩
          intro x hx hxl hxc
          rcases List.mem_cons.mp hx with rfl | hx2
          · have hbf : dup_better acc x = false := by
              rcases Bool.and_eq_false_iff.mp hcb with h1 | h1
              · rw [hxc] at h1; simp at h1
              · exact h1
            obtain ⟨a, ha, hda⟩ := dup_better_false acc x hbf
            exact lt_of_le_of_lt hda (haccp a ha)
          · exact hpre x hx2 hxl hxc
    · rw [Bool.not_eq_true] at hl
      rw [show stable_node_dup_walk max true acc nr (d :: rest)
            = stable_node_dup_walk max true acc nr rest by
          simp [stable_node_dup_walk, hl]] at h
      rcases ih acc nr h with ⟨hacc, hbound⟩ |
        ⟨pre, post, heq, hmlive, hmcand, hpre, hpost, haccp⟩
      · refine Or.inl ⟨hacc, ?_⟩
        intro x hx hxl hxc
        rcases List.mem_cons.mp hx with rfl | hx2
        · simp [hl] at hxl
        · exact hbound x hx2 hxl hxc
      · refine Or.inr ⟨d :: pre, post, by simp [heq], hmlive, hmcand,
          ?_, hpost, haccp⟩
        intro x hx hxl hxc
        rcases List.mem_cons.mp hx with rfl | hx2
        · simp [hl] at hxl
        · exact hpre x hx2 hxl hxc

/-- C2 (amended): a pruning Canonical Store lookup that selects a duplicate
on a chain selects a live duplicate with fan-out headroom whose current
reverse-mapping length is maximal among the chain's live duplicates with
headroom — i.e. the one with the *smallest* remaining headroom — breaking
ties toward the first such duplicate found during the walk. -/
theorem C2_dup_selection_amended (max : Int) (dups : List DupNode)
    (m : DupNode) (hm : (stable_node_dup_model max true dups).1 = some m) :
    ∃ pre post, dups = pre ++ m :: post ∧ m.live = true ∧
      is_page_sharing_candidate max m.len = true ∧
      (∀ x ∈ pre, x.live = true →
        is_page_sharing_candidate max x.len = true → x.len < m.len) ∧
      (∀ x ∈ post, x.live = true →
        is_page_sharing_candidate max x.len = true → x.len ≤ m.len) := by
  rcases stable_node_dup_walk_sel max m dups none 0 hm with ⟨hacc, _⟩ |
    ⟨pre, post, h1, h2, h3, h4, h5, _⟩
  · exact absurd hacc (by simp)
  · exact ⟨pre, post, h1, h2, h3, h4, h5⟩

/-- C2 amended witness: the chain of the counterexample, where the selected
duplicate is the live candidate of maximal length 2. -/
theorem C2_dup_selection_amended_witness :
    ((stable_node_dup_model 256 true [⟨true, 1⟩, ⟨true, 2⟩]).1
        = some ⟨true, 2⟩) ∧
    (∃ pre post,
      [(⟨true, 1⟩ : DupNode), ⟨true, 2⟩] = pre ++ ⟨true, 2⟩ :: post ∧
      (⟨true, 2⟩ : DupNode).live = true ∧
      is_page_sharing_candidate 256 (⟨true, 2⟩ : DupNode).len = true ∧
      (∀ x ∈ pre, x.live = true →
        is_page_sharing_candidate 256 x.len = true →
          x.len < (⟨true, 2⟩ : DupNode).len) ∧
      (∀ x ∈ post, x.live = true →
        is_page_sharing_candidate 256 x.len = true →
          x.len ≤ (⟨true, 2⟩ : DupNode).len)) :=
  ⟨by decide,
    C2_dup_selection_amended 256 [⟨true, 1⟩, ⟨true, 2⟩] ⟨true, 2⟩ (by decide)⟩

/-- C5 helper: a walk over a chain with no live duplicate keeps the
accumulator and the live count. -/
theorem stable_node_dup_walk_all_dead (max : Int) :
    ∀ (l : List DupNode) (acc : Option DupNode) (nr : Nat),
      l.filter (fun d => d.live) = [] →
      stable_node_dup_walk max true acc nr l = (acc, nr) := by
  intro l
  induction l with
  | nil => intro acc nr _; rfl
  | cons d rest ih =>
    intro acc nr h
    rw [List.filter_cons] at h
    by_cases hl : d.live
    · simp [hl] at h
    · rw [Bool.not_eq_true] at hl
      simp only [hl, Bool.false_eq_true, if_false] at h
      simp [stable_node_dup_walk, hl, ih acc nr h]

/-- C5 helper: when exactly one live duplicate remains on the chain and it
is a sharing candidate, the pruning walk selects it and counts one live
duplicate. -/
theorem stable_node_dup_single_live (max : Int) :
    ∀ (ds : List DupNode) (d : DupNode),
      ds.filter (fun x => x.live) = [d] →
      is_page_sharing_candidate max d.len = true →
      stable_node_dup_model max true ds = (some d, 1) := by
  intro ds
  induction ds with
  | nil => intro d h _; simp at h
  | cons x rest ih =>
    intro d h hcand
    rw [List.filter_cons] at h
    by_cases hl : x.live
    · simp only [hl, if_true] at h
      have hx : x = d := by injection h
      have hrest : rest.filter (fun y => y.live) = [] := by injection h
      subst hx
      unfold stable_node_dup_model
      simp [stable_node_dup_walk, hl, hcand, dup_better,
        stable_node_dup_walk_all_dead max rest (some x) 1 hrest]
    · rw [Bool.not_eq_true] at hl
      simp only [hl, Bool.false_eq_true, if_false] at h
      have hrec := ih d h hcand
      unfold stable_node_dup_model at hrec ⊢
      simp [stable_node_dup_walk, hl, hrec]

/-- C5 counterexample: a chain of one stale and one live candidate
duplicate starts with duplicate counter 2; the pruning lookup evicts the
stale duplicate (one decrement) and collapses the chain (another
decrement), leaving the counter at 0, not at 2 - 1 as the claim's
"duplicate count drops by one" predicts. -/
theorem C5_counterexample :
    (chain_prune_at 256 [StoreEntry.chainE [⟨false, 5⟩, ⟨true, 1⟩]]
        1 2 0).ndups = 0 ∧
    (0 : Int) ≠ 2 - 1 := by
  decide

/-- C5 (amended): for a pruning lookup that reaches a chain at position k
of the Canonical Store, if exactly one live duplicate remains after pruning
dead duplicates and it has fan-out headroom, the chain is replaced at the
same tree position by that duplicate as a regular node; the chain counter
drops by one and the duplicate counter drops by one for the collapse plus
one for each stale duplicate evicted during the pruning walk; every other
store position is untouched, and exactly one entry remains on the chain's
list (the collapse assertion). -/
theorem C5_chain_collapse_amended (max : Int) (store : List StoreEntry)
    (chains ndups : Int) (k : Nat) (ds : List DupNode) (d : DupNode)
    (hk : store[k]? = some (StoreEntry.chainE ds))
    (hlive : ds.filter (fun x => x.live) = [d])
    (hcand : is_page_sharing_candidate max d.len = true) :
    chain_prune_at max store chains ndups k
      = ⟨store.set k (StoreEntry.regular d), chains - 1,
          ndups - ((ds.filter (fun x => !x.live)).length : Int) - 1,
          some d⟩ ∧
    (store.set k (StoreEntry.regular d)).length = store.length ∧
    (∀ j, j ≠ k → (store.set k (StoreEntry.regular d))[j]? = store[j]?) ∧
    (ds.filter (fun x => x.live)).length = 1 := by
  have hmodel := stable_node_dup_single_live max ds d hlive hcand
  refine ⟨?_, by simp, ?_, by rw [hlive]; rfl⟩
  · simp [chain_prune_at, hk, hmodel]
  · intro j hj
    exact List.getElem?_set_ne (fun he => hj he.symm)

/-- C5 amended witness: a chain with one stale and one live candidate
duplicate collapses to the live one, with the duplicate counter dropping by
two (one eviction, one collapse). -/
theorem C5_chain_collapse_amended_witness :
    chain_prune_at 256 [StoreEntry.chainE [⟨false, 5⟩, ⟨true, 1⟩]] 1 2 0
      = ⟨[StoreEntry.chainE [⟨false, 5⟩, ⟨true, 1⟩]].set 0
          (StoreEntry.regular ⟨true, 1⟩), 1 - 1,
          2 - ((([⟨false, 5⟩, ⟨true, 1⟩] : List DupNode).filter
            (fun x => !x.live)).length : Int) - 1, some ⟨true, 1⟩⟩ :=
  (C5_chain_collapse_amended 256
    [StoreEntry.chainE [⟨false, 5⟩, ⟨true, 1⟩]] 1 2 0
    [⟨false, 5⟩, ⟨true, 1⟩] ⟨true, 1⟩ (by decide) (by decide) (by decide)).1

/-- List helper: updating at the junction of a decomposition. -/
theorem set_decomp {α : Type} (l1 l2 : List α) (x v : α) :
    (l1 ++ x :: l2).set l1.length v = l1 ++ v :: l2 := by
  induction l1 with
  | nil => rfl
  | cons y ys ih => simp [List.set, ih]

/-- List helper: erasing at the junction of a decomposition. -/
theorem eraseIdx_decomp {α : Type} (l1 l2 : List α) (x : α) :
    (l1 ++ x :: l2).eraseIdx l1.length = l1 ++ l2 := by
  induction l1 with
  | nil => rfl
  | cons y ys ih => simp [List.eraseIdx, ih]

/-- List helper: every valid index splits the list around its element. -/
theorem exists_decomp {α : Type} :
    ∀ (l : List α) (n : Nat) (h : n < l.length),
      ∃ l1 l2, l = l1 ++ l.get ⟨n, h⟩ :: l2 ∧ l1.length = n := by
  intro l
  induction l with
  | nil => intro n h; simp at h
  | cons x xs ih =>
    intro n h
    cases n with
    | zero => exact ⟨[], xs, rfl, rfl⟩
    | succ n =>
      have hn : n < xs.length := by simpa using h
      obtain ⟨l1, l2, heq, hlen⟩ := ih n hn
      refine ⟨x :: l1, l2, ?_, by simp [hlen]⟩
      simp only [List.cons_append]
      rw [show (x :: xs).get ⟨n + 1, h⟩ = xs.get ⟨n, hn⟩ from rfl]
      rw [← heq]

/-- C10 helper: closed form of the counter effect of removing a whole node
with a non-empty reverse-mapping list. -/
theorem remove_node_counters_closed :
    ∀ (l : List Nat) (c : Counters), l ≠ [] →
      remove_node_counters l c
        = ⟨c.pages_shared - 1, c.pages_sharing - ((l.length : Int) - 1)⟩ := by
  intro l
  induction l with
  | nil => intro c h; exact absurd rfl h
  | cons x xs ih =>
    intro c _
    cases xs with
    | nil =>
      simp only [remove_node_counters, List.length_cons, List.length_nil]
      simp [Counters.mk.injEq]
    | cons y ys =>
      rw [show remove_node_counters (x :: y :: ys) c
            = remove_node_counters (y :: ys)
                { c with pages_sharing := c.pages_sharing - 1 } from rfl]
      rw [ih _ (by simp)]
      simp only [Counters.mk.injEq, List.length_cons]
      refine ⟨trivial, ?_⟩
      push_cast
      ring

/-- C10 helper: the counter identities are preserved by every engine step on
the stable store. -/
theorem counters_consistent_step (s s1 : TreeState) (hst : TreeStep s s1)
    (hinv : counters_consistent s) : counters_consistent s1 := by
  unfold counters_consistent at hinv ⊢
  obtain ⟨hc1, hc2⟩ := hinv
  cases hst with
  | insert_node =>
    constructor
    · dsimp only
      simp [List.countP_append, List.countP_cons, hc1]
    · dsimp only
      simp [List.map_append, List.sum_append, hc2]
  | attach item n h =>
    obtain ⟨l1, l2, heq, hlen⟩ := exists_decomp s.nodes n h
    subst hlen
    have hset : ∀ v : StableNode, s.nodes.set l1.length v = l1 ++ v :: l2 :=
      fun v => by
        conv_lhs => rw [heq]
        exact set_decomp l1 l2 _ v
    rw [heq] at hc1 hc2
    simp only [List.get_eq_getElem] at heq hc1 hc2 ⊢
    by_cases he : (s.nodes[l1.length]).hlist.isEmpty
    · rw [List.isEmpty_iff] at he
      constructor <;>
      · dsimp only
        rw [hset]
        simp [stable_tree_append, he, List.countP_append, List.countP_cons,
          List.map_append, List.sum_append] at hc1 hc2 ⊢
        omega
    · rw [Bool.not_eq_true, List.isEmpty_eq_false] at he
      constructor <;>
      · dsimp only
        rw [hset]
        simp [stable_tree_append, he, List.countP_append, List.countP_cons,
          List.map_append, List.sum_append] at hc1 hc2 ⊢
        omega
  | detach item n h hmem =>
    obtain ⟨l1, l2, heq, hlen⟩ := exists_decomp s.nodes n h
    subst hlen
    have hset : ∀ v : StableNode, s.nodes.set l1.length v = l1 ++ v :: l2 :=
      fun v => by
        conv_lhs => rw [heq]
        exact set_decomp l1 l2 _ v
    rw [heq] at hc1 hc2
    simp only [List.get_eq_getElem] at heq hc1 hc2 hmem ⊢
    have hnil : s.nodes[l1.length].hlist ≠ [] := List.ne_nil_of_mem hmem
    have herase : (s.nodes[l1.length].hlist.erase item).length + 1
        = s.nodes[l1.length].hlist.length := by
      have h1 := List.length_erase_of_mem hmem
      have h2 : 0 < s.nodes[l1.length].hlist.length := List.length_pos.mpr hnil
      omega
    by_cases he : (s.nodes[l1.length].hlist.erase item).isEmpty
    · rw [List.isEmpty_iff] at he
      rw [he] at herase
      simp only [List.length_nil, Nat.zero_add] at herase
      constructor <;>
      · dsimp only
        rw [hset]
        simp [remove_rmap_item_stable, he, hnil, List.countP_append,
          List.countP_cons, List.map_append, List.sum_append] at hc1 hc2 ⊢
        omega
    · rw [Bool.not_eq_true, List.isEmpty_eq_false] at he
      constructor <;>
      · dsimp only
        rw [hset]
        simp [remove_rmap_item_stable, he, hnil, List.countP_append,
          List.countP_cons, List.map_append, List.sum_append] at hc1 hc2 ⊢
        omega
  | remove_node n h =>
    obtain ⟨l1, l2, heq, hlen⟩ := exists_decomp s.nodes n h
    subst hlen
    have hidx : s.nodes.eraseIdx l1.length = l1 ++ l2 := by
      conv_lhs => rw [heq]
      exact eraseIdx_decomp l1 l2 _
    rw [heq] at hc1 hc2
    simp only [List.get_eq_getElem] at heq hc1 hc2 ⊢
    by_cases he : (s.nodes[l1.length]).hlist.isEmpty
    · rw [List.isEmpty_iff] at he
      have hrnc : remove_node_counters (s.nodes[l1.length]).hlist s.counters
          = s.counters := by rw [he]; rfl
      constructor <;>
      · dsimp only
        rw [hidx, hrnc]
        simp [he, List.countP_append, List.countP_cons, List.map_append,
          List.sum_append] at hc1 hc2 ⊢
        omega
    · rw [Bool.not_eq_true, List.isEmpty_eq_false] at he
      have hrnc := remove_node_counters_closed
        (s.nodes[l1.length]).hlist s.counters he
      have hlpos : 0 < (s.nodes[l1.length]).hlist.length := List.length_pos.mpr he
      constructor <;>
      · dsimp only
        rw [hidx, hrnc]
        simp [he, List.countP_append, List.countP_cons, List.map_append,
          List.sum_append] at hc1 hc2 ⊢
        omega

/-- C10: along every reachable engine history, pages_shared counts exactly
the canonical nodes with a non-empty reverse-mapping list and
pages_shared + pages_sharing counts all attached records; an attach
increments pages_sharing exactly when the node already had an attached
record and pages_shared otherwise, and a detach reverses the corresponding
counter. -/
theorem C10_counter_invariant (s : TreeState) (h : TreeReachable s) :
    counters_consistent s ∧
    (∀ (item : Nat) (node : StableNode) (c : Counters),
      (stable_tree_append item node c).2
        = (if node.hlist.isEmpty then
             { c with pages_shared := c.pages_shared + 1 }
           else { c with pages_sharing := c.pages_sharing + 1 })) ∧
    (∀ (item : Nat) (node : StableNode) (c : Counters),
      (remove_rmap_item_stable item node c).2
        = (if (node.hlist.erase item).isEmpty then
             { c with pages_shared := c.pages_shared - 1 }
           else { c with pages_sharing := c.pages_sharing - 1 })) := by
  refine ⟨?_, ?_, ?_⟩
  · induction h with
    | refl => exact ⟨rfl, rfl⟩
    | tail _ hstep ih => exact counters_consistent_step _ _ hstep ih
  · intro item node c
    by_cases he : node.hlist.isEmpty <;> simp [stable_tree_append, he]
  · intro item node c
    by_cases he : (node.hlist.erase item).isEmpty <;>
      simp [remove_rmap_item_stable, he]

/-- C10 witness: the state reached by inserting one node and attaching one
record item to it. -/
theorem C10_counter_invariant_witness :
    counters_consistent ⟨[⟨[5], 1⟩], ⟨1, 0⟩⟩ :=
  (C10_counter_invariant ⟨[⟨[5], 1⟩], ⟨1, 0⟩⟩
    (Relation.ReflTransGen.tail
      (Relation.ReflTransGen.single (TreeStep.insert_node ⟨[], ⟨0, 0⟩⟩))
      (TreeStep.attach ⟨[⟨[], 0⟩], ⟨0, 0⟩⟩ 5 0 (by decide)))).1

/-- C4 helper: removing the first tracked item preserves well-formedness
against the remaining items. -/
theorem wfU_remove_item (it : UItem) (rest : List UItem) (s : UState)
    (hwf : wfU (it :: rest) s) :
    wfU rest (remove_rmap_item_from_tree it s) := by
  unfold wfU at hwf ⊢
  obtain ⟨h1, h2, h3, h4, h5⟩ := hwf
  match hflag : it.flag with
  | RmapFlag.untracked =>
    have hs : remove_rmap_item_from_tree it s = s := by
      simp [remove_rmap_item_from_tree, hflag]
    rw [hs]
    refine ⟨fun n hn => ?_, fun x hx => h2 x (List.mem_cons_of_mem _ hx),
      h3, h4, ?_⟩
    · rw [h1 n hn]
      simp [countRefs, List.filter_cons, hflag]
    · rw [h5]
      simp [List.countP_cons, hflag]
  | RmapFlag.unstable =>
    have hs : remove_rmap_item_from_tree it s
        = { s with pages_unshared := s.pages_unshared - 1 } := by
      simp [remove_rmap_item_from_tree, hflag]
    rw [hs]
    refine ⟨fun n hn => ?_, fun x hx => h2 x (List.mem_cons_of_mem _ hx),
      h3, h4, ?_⟩
    · rw [h1 n hn]
      simp [countRefs, List.filter_cons, hflag]
    · have hcnt : (it :: rest).countP
          (fun x => decide (x.flag = RmapFlag.unstable))
          = rest.countP (fun x => decide (x.flag = RmapFlag.unstable)) + 1 := by
        simp [List.countP_cons, hflag]
      rw [hcnt] at h5
      dsimp only
      omega
  | RmapFlag.stable j =>
    have hj : j < s.nodes.length := by
      have := h2 it (List.mem_cons_self _ _)
      simpa [flag_in_range, hflag] using this
    have hcons : countRefs (it :: rest) j = countRefs rest j + 1 := by
      simp [countRefs, List.filter_cons, hflag]
    have hk : s.nodes[j]? = some (countRefs rest j + 1) := by
      rw [h1 j hj, hcons]
    have hs : remove_rmap_item_from_tree it s
        = { s with nodes := s.nodes.set j (countRefs rest j),
                   pages_shared := if countRefs rest j = 0
                     then s.pages_shared - 1 else s.pages_shared,
                   pages_sharing := if countRefs rest j = 0
                     then s.pages_sharing else s.pages_sharing - 1 } := by
      simp [remove_rmap_item_from_tree, hflag, hk]
    rw [hs]
    obtain ⟨l1, l2, heq, hlen⟩ := exists_decomp s.nodes j hj
    have hgv : s.nodes.get ⟨j, hj⟩ = countRefs rest j + 1 := by
      have h0 := List.getElem?_eq_getElem hj
      rw [h0] at hk
      simpa [List.get_eq_getElem] using Option.some.inj hk
    rw [hgv] at heq
    subst hlen
    have hset : s.nodes.set l1.length (countRefs rest l1.length)
        = l1 ++ countRefs rest l1.length :: l2 := by
      conv_lhs => rw [heq]
      exact set_decomp l1 l2 _ _
    rw [heq] at h3 h4
    refine ⟨?_, ?_, ?_, ?_, ?_⟩
    · intro n hn
      dsimp only at hn ⊢
      rw [List.length_set] at hn
      by_cases hnj : n = l1.length
      · subst hnj
        rw [List.getElem?_set_self hn]
      · have hne2 : l1.length ≠ n := fun hh => hnj hh.symm
        rw [List.getElem?_set_ne hne2, h1 n hn]
        have : countRefs (it :: rest) n = countRefs rest n := by
          simp [countRefs, List.filter_cons, hflag, hne2]
        rw [this]
    · intro x hx
      dsimp only
      rw [List.length_set]
      exact h2 x (List.mem_cons_of_mem _ hx)
    · dsimp only
      rw [hset]
      by_cases hz : countRefs rest l1.length = 0
      · simp [hz, List.countP_append, List.countP_cons] at h3 ⊢
        omega
      · have hpos : 0 < countRefs rest l1.length := Nat.pos_of_ne_zero hz
        simp [hz, hpos, List.countP_append, List.countP_cons] at h3 ⊢
        omega
    · dsimp only
      rw [hset]
      by_cases hz : countRefs rest l1.length = 0
      · simp [hz, List.map_append, List.sum_append] at h3 h4 ⊢
        omega
      · simp [hz, List.map_append, List.sum_append] at h3 h4 ⊢
        omega
    · dsimp only
      rw [h5]
      simp [List.countP_cons, hflag]

/-- C4 helper: removal of a whole rmap_list preserves well-formedness
against the remaining items. -/
theorem wfU_remove_trailing :
    ∀ (items tail : List UItem) (s : UState),
      wfU (items ++ tail) s → wfU tail (remove_trailing_rmap_items items s) := by
  intro items
  induction items with
  | nil =>
    intro tail s h
    simpa [remove_trailing_rmap_items] using h
  | cons it rest ih =>
    intro tail s h
    have hstep := wfU_remove_item it (rest ++ tail) s (by simpa using h)
    have hrec := ih tail _ hstep
    simpa [remove_trailing_rmap_items] using hrec

/-- C4 helper: with no slot failing, the slot loop reduces to removing every
item of every rmap_list. -/
theorem unmerge_slots_ok :
    ∀ (slots : List USlot) (s : UState),
      (∀ sl ∈ slots, sl.unmerge_err = none) →
      unmerge_slots slots s
        = Except.ok (remove_trailing_rmap_items (allItems slots) s) := by
  intro slots
  induction slots with
  | nil =>
    intro s _
    simp [unmerge_slots, allItems, remove_trailing_rmap_items]
  | cons sl rest ih =>
    intro s h
    have hsl : sl.unmerge_err = none := h sl (List.mem_cons_self _ _)
    rw [show unmerge_slots (sl :: rest) s
          = unmerge_slots rest (remove_trailing_rmap_items sl.items s) by
        simp [unmerge_slots, hsl]]
    rw [ih _ (fun x hx => h x (List.mem_cons_of_mem _ hx))]
    have hall : allItems (sl :: rest) = sl.items ++ allItems rest := by
      simp [allItems]
    rw [hall]
    simp only [remove_trailing_rmap_items, List.foldl_append]

/-- C4 helper: zero counts make the node-removal fold a no-op. -/
theorem fold_remove_zero :
    ∀ (l : List Nat) (st : UState), (∀ k ∈ l, k = 0) →
      l.foldl (fun st2 k => remove_node_counters_k k st2) st = st := by
  intro l
  induction l with
  | nil => intro st _; rfl
  | cons x xs ih =>
    intro st h
    have hx : x = 0 := h x (List.mem_cons_self _ _)
    simp only [List.foldl_cons, hx]
    rw [show remove_node_counters_k 0 st = st by simp [remove_node_counters_k]]
    exact ih st (fun k hk => h k (List.mem_cons_of_mem _ hk))

/-- C4 helper: an all-zero occupancy list has no occupied node and no
attached item. -/
theorem countP_sum_zero :
    ∀ (l : List Nat), (∀ k ∈ l, k = 0) →
      l.countP (fun k => decide (0 < k)) = 0 ∧ l.sum = 0 := by
  intro l
  induction l with
  | nil => intro _; simp
  | cons x xs ih =>
    intro h
    have hx : x = 0 := h x (List.mem_cons_self _ _)
    have hxs := ih (fun k hk => h k (List.mem_cons_of_mem _ hk))
    simp [List.countP_cons, hx, hxs.1, hxs.2]

/-- C4 helper: a state well-formed against an empty item population has all
counters at zero and all nodes unoccupied. -/
theorem wfU_nil_zero (s : UState) (h : wfU [] s) :
    s.pages_shared = 0 ∧ s.pages_sharing = 0 ∧ s.pages_unshared = 0 ∧
    ∀ k ∈ s.nodes, k = 0 := by
  unfold wfU at h
  obtain ⟨h1, _, h3, h4, h5⟩ := h
  have hz : ∀ k ∈ s.nodes, k = 0 := by
    intro k hk
    obtain ⟨i, hi, hgi⟩ := List.mem_iff_getElem.mp hk
    have h0 := h1 i hi
    rw [List.getElem?_eq_getElem hi, hgi] at h0
    have := Option.some.inj h0
    simpa [countRefs] using this
  obtain ⟨hcp, hsum⟩ := countP_sum_zero s.nodes hz
  have hsh : s.pages_shared = 0 := by rw [h3, hcp]; rfl
  refine ⟨hsh, ?_, ?_, hz⟩
  · rw [hsum] at h4
    omega
  · simpa [countRefs] using h5

/-- C4 helper: clearing every slot leaves no tracked item. -/
theorem allItems_cleared (slots : List USlot) :
    allItems (slots.map (fun sl => { sl with items := ([] : List UItem) }))
      = [] := by
  induction slots with
  | nil => rfl
  | cons sl rest ih =>
    simp only [allItems, List.map_cons, List.flatten_cons] at ih ⊢
    simp only [List.nil_append]
    exact ih

/-- C4 helper: clearing the slots twice is the same as clearing them once. -/
theorem map_clear_idem (slots : List USlot) :
    (slots.map (fun sl => { sl with items := ([] : List UItem) })).map
        (fun sl => { sl with items := ([] : List UItem) })
      = slots.map (fun sl => { sl with items := ([] : List UItem) }) := by
  simp [List.map_map, Function.comp]

/-- C4 helper: removing all stable nodes of an already empty store does
nothing. -/
theorem remove_all_nil (busy : Nat → Bool) (s : UState)
    (h : s.nodes = []) :
    (remove_all_stable_nodes busy s).2 = s := by
  cases s with
  | mk nodes a b c =>
    simp only at h
    subst h
    rfl

/-- C4 helper: with no busy node the removal loop removes every node and
reduces to the per-node counter fold. -/
theorem remove_all_loop_no_busy (busy : Nat → Bool)
    (hb : ∀ n, busy n = false) :
    ∀ (l : List Nat) (i : Nat) (s : UState),
      remove_all_stable_nodes_loop busy i l s
        = (0, [], l.foldl (fun st k => remove_node_counters_k k st) s) := by
  intro l
  induction l with
  | nil => intro i s; rfl
  | cons k rest ih =>
    intro i s
    simp [remove_all_stable_nodes_loop, hb i, ih]

/-- C4 counterexample: with one stable node whose page is still mapped
(busy), the unmerge verb discards the -EBUSY of remove_all_stable_nodes and
reports success with the engine left running, while the Canonical Store
still holds the busy node — it partially succeeds silently instead of
reporting a busy error. -/
theorem C4_silent_busy_counterexample :
    run_store_unmerge (fun _ => true) [] ⟨[0], 0, 0, 0⟩
      = (KSM_RUN_UNMERGE, Except.ok ([], ⟨[0], 0, 0, 0⟩)) ∧
    ([0] : List Nat) ≠ [] ∧
    KSM_RUN_UNMERGE ≠ KSM_RUN_STOP :=
  ⟨rfl, by decide, by decide⟩

/-- C4 (amended): when no slot's unmerge fails and no stable node's page is
still mapped, invoking unmerge empties every rmap_list, the Canonical Store
and the counters, and invoking it again returns the very same empty state
(idempotence); a failing unmerge_ksm_pages makes the run verb stop the
engine and report the error; but the busy result of remove_all_stable_nodes
is discarded by the teardown (lksm.c:1506-1509), so busy stable nodes are
silently left behind under a success report. -/
theorem C4_unmerge_amended (busy : Nat → Bool) (slots : List USlot)
    (s : UState) (hbusy : ∀ n, busy n = false)
    (hwf : wfU (allItems slots) s)
    (herr : ∀ sl ∈ slots, sl.unmerge_err = none) :
    ∃ slots1 s1,
      unmerge_and_remove_all_rmap_items busy slots s
          = Except.ok (slots1, s1) ∧
      s1.nodes = [] ∧ s1.pages_shared = 0 ∧ s1.pages_sharing = 0 ∧
      s1.pages_unshared = 0 ∧ (∀ sl ∈ slots1, sl.items = []) ∧
      unmerge_and_remove_all_rmap_items busy slots1 s1
          = Except.ok (slots1, s1) ∧
      (∀ (busy2 : Nat → Bool) (slots2 : List USlot) (s2 : UState) (e : Int),
        unmerge_slots slots2 s2 = Except.error e →
        run_store_unmerge busy2 slots2 s2
          = (KSM_RUN_STOP, Except.error e)) := by
  have hok := unmerge_slots_ok slots s herr
  have hwf0 : wfU [] (remove_trailing_rmap_items (allItems slots) s) :=
    wfU_remove_trailing (allItems slots) [] s (by simpa using hwf)
  set s0 := remove_trailing_rmap_items (allItems slots) s with hs0def
  obtain ⟨hsh, hshar, hun, hz⟩ := wfU_nil_zero _ hwf0
  have hfold := fold_remove_zero s0.nodes s0 hz
  have hs1 : (remove_all_stable_nodes busy s0).2
      = { s0 with nodes := ([] : List Nat) } := by
    simp only [remove_all_stable_nodes, remove_all_loop_no_busy busy hbusy,
      hfold]
  set s1v := (remove_all_stable_nodes busy s0).2 with hs1def
  set slots1 := slots.map (fun sl => { sl with items := ([] : List UItem) })
    with hslots1def
  have hnodes : s1v.nodes = [] := by rw [hs1]
  refine ⟨slots1, s1v, ?_, hnodes, ?_, ?_, ?_, ?_, ?_, ?_⟩
  · simp only [unmerge_and_remove_all_rmap_items, hok]
  · rw [hs1]; exact hsh
  · rw [hs1]; exact hshar
  · rw [hs1]; exact hun
  · intro sl hsl
    obtain ⟨sl0, _, rfl⟩ := List.mem_map.mp hsl
    rfl
  · have herr1 : ∀ sl ∈ slots1, sl.unmerge_err = none := by
      intro sl hsl
      obtain ⟨sl0, hsl0, rfl⟩ := List.mem_map.mp hsl
      exact herr sl0 hsl0
    have hok1 := unmerge_slots_ok slots1 s1v herr1
    rw [hslots1def, allItems_cleared] at hok1
    have htriv : remove_trailing_rmap_items [] s1v = s1v := rfl
    rw [htriv] at hok1
    simp only [unmerge_and_remove_all_rmap_items, hok1]
    rw [hslots1def, map_clear_idem, remove_all_nil busy s1v hnodes]
  · intro busy2 slots2 s2 e herr2
    simp [run_store_unmerge, unmerge_and_remove_all_rmap_items, herr2]

/-- C4 amended witness: two slots with two shared items, one singly shared
item and one unstable item, no busy node, all counters matching. -/
theorem C4_unmerge_amended_witness :
    ∃ slots1 s1,
      unmerge_and_remove_all_rmap_items (fun _ => false) c4slots c4state
          = Except.ok (slots1, s1) ∧
      s1.nodes = [] ∧ s1.pages_shared = 0 ∧ s1.pages_sharing = 0 ∧
      s1.pages_unshared = 0 ∧ (∀ sl ∈ slots1, sl.items = []) ∧
      unmerge_and_remove_all_rmap_items (fun _ => false) slots1 s1
          = Except.ok (slots1, s1) ∧
      (∀ (busy2 : Nat → Bool) (slots2 : List USlot) (s2 : UState) (e : Int),
        unmerge_slots slots2 s2 = Except.error e →
        run_store_unmerge busy2 slots2 s2
          = (KSM_RUN_STOP, Except.error e)) :=
  C4_unmerge_amended (fun _ => false) c4slots c4state (fun _ => rfl)
    (by unfold wfU; decide) (by decide)

end LKSM
